import Mathlib

/-!
Verification development for a small ab-initio workflow toolkit.

Shallow embedding conventions:
* Python floats are modelled as real numbers (`ℝ`) for the physical model
  functions, and as rationals (`ℚ`) where exact evaluation is needed
  (initial-guess vectors, float formatting).
* Python `**` with a float exponent is modelled by `Real.rpow`; `**` with an
  integer literal exponent by monoid powers.
* Exceptions are modelled with `Except`.
-/

namespace fits

/-- Lorentzian function, as defined in `abinit_tools/fits.py`. -/
noncomputable def lorentzian (x a b c : ℝ) : ℝ :=
  (a / Real.pi) * ((c / 2) / ((x - b) ^ 2 + (c / 2) ^ 2))

/-- Univariate Gaussian function, as defined in `abinit_tools/fits.py`. -/
noncomputable def gaussian (x mu sigma : ℝ) : ℝ :=
  Real.exp (-(x - mu) ^ 2 / (2 * sigma ^ 2)) / Real.sqrt (2 * Real.pi * sigma ^ 2)

/-- Murnaghan equation of state, as defined in `abinit_tools/fits.py`. -/
noncomputable def murnaghan (V V_0 E_0 B_0 B_1 : ℝ) : ℝ :=
  E_0 + B_0 * V_0 * ((1 / (B_1 * (B_1 - 1))) * (V / V_0) ^ (1 - B_1)
    + V / (B_1 * V_0) - 1 / (B_1 - 1))

/-- Birch-Murnaghan equation of state, as defined in `abinit_tools/fits.py`.
The first (cubed) factor uses the exponent `2/4` exactly as written in the
source; the remaining two factors use `2/3`. -/
noncomputable def birch_murnaghan (V V_0 E_0 B_0 B_1 : ℝ) : ℝ :=
  E_0 + (9 * V_0 * B_0 / 16) * (((V_0 / V) ^ ((2 : ℝ) / 4) - 1) ^ 3 * B_1
    + ((V_0 / V) ^ ((2 : ℝ) / 3) - 1) ^ 2 * (6 - 4 * (V_0 / V) ^ ((2 : ℝ) / 3)))

end fits

namespace fitpy

/-- Murnaghan equation of state, duplicated in `scripts/fit.py`. -/
noncomputable def murnaghan (V V_0 E_0 B_0 B_1 : ℝ) : ℝ :=
  E_0 + B_0 * V_0 * ((1 / (B_1 * (B_1 - 1))) * (V / V_0) ^ (1 - B_1)
    + V / (B_1 * V_0) - 1 / (B_1 - 1))

/-- Birch-Murnaghan equation of state, duplicated in `scripts/fit.py` (with the
same `2/4` exponent in the cubed factor as the `abinit_tools/fits.py` copy). -/
noncomputable def birch_murnaghan (V V_0 E_0 B_0 B_1 : ℝ) : ℝ :=
  E_0 + (9 * V_0 * B_0 / 16) * (((V_0 / V) ^ ((2 : ℝ) / 4) - 1) ^ 3 * B_1
    + ((V_0 / V) ^ ((2 : ℝ) / 3) - 1) ^ 2 * (6 - 4 * (V_0 / V) ^ ((2 : ℝ) / 3)))

/-- Lorentzian function, duplicated in `scripts/fit.py`. -/
noncomputable def lorentzian (x a b c : ℝ) : ℝ :=
  (a / Real.pi) * ((c / 2) / ((x - b) ^ 2 + (c / 2) ^ 2))

end fitpy

/-- Birch-Murnaghan equation of state as written in the specification, with the
exponent `2/3` in all three occurrences of `(V_0/V)^(2/3)`, including the cubed
first term.  This definition follows the spec text and is compared against the
source definition. -/
noncomputable def birch_murnaghan_spec (V V_0 E_0 B_0 B_1 : ℝ) : ℝ :=
  E_0 + (9 * V_0 * B_0 / 16) * (((V_0 / V) ^ ((2 : ℝ) / 3) - 1) ^ 3 * B_1
    + ((V_0 / V) ^ ((2 : ℝ) / 3) - 1) ^ 2 * (6 - 4 * (V_0 / V) ^ ((2 : ℝ) / 3)))

/-- Auxiliary evaluation rule for real powers with rational exponents:
`(b ^ n) ^ (m / n) = b ^ m` for a nonnegative base. -/
lemma rpow_nat_frac (b : ℝ) (hb : 0 ≤ b) (m n : ℕ) (hn : n ≠ 0) :
    ((b ^ n : ℝ)) ^ ((m : ℝ) / (n : ℝ)) = b ^ m := by
  have h1 : ((m : ℝ) / (n : ℝ)) = ((n : ℝ))⁻¹ * (m : ℝ) := by
    rw [div_eq_mul_inv, mul_comm]
  rw [h1, Real.rpow_mul (pow_nonneg hb n), Real.pow_rpow_inv_natCast hb hn,
    Real.rpow_natCast]

/-- Evaluation fact: `64 ^ (2/4) = 8` over the reals. -/
lemma rpow_64_half : ((64 : ℝ)) ^ ((2 : ℝ) / 4) = 8 := by
  have h : ((2 : ℝ) / 4) = ((1 : ℕ) : ℝ) / ((2 : ℕ) : ℝ) := by norm_num
  have h8 : ((64 : ℝ)) = (8 : ℝ) ^ (2 : ℕ) := by norm_num
  rw [h, h8, rpow_nat_frac 8 (by norm_num) 1 2 (by norm_num)]
  norm_num

/-- Evaluation fact: `64 ^ (2/3) = 16` over the reals. -/
lemma rpow_64_twothirds : ((64 : ℝ)) ^ ((2 : ℝ) / 3) = 16 := by
  have h : ((2 : ℝ) / 3) = ((2 : ℕ) : ℝ) / ((3 : ℕ) : ℝ) := by norm_num
  have h4 : ((64 : ℝ)) = (4 : ℝ) ^ (3 : ℕ) := by norm_num
  rw [h, h4, rpow_nat_frac 4 (by norm_num) 2 3 (by norm_num)]
  norm_num

/-- C1: the source `birch_murnaghan` (exponent `2/4` in the cubed term) and the
specification formula (exponent `2/3` throughout) disagree at the concrete
input `V = 1, V_0 = 64, E_0 = 0, B_0 = 16/9, B_1 = 2`: the code computes
`-791296` while the claimed formula gives `-403200`. -/
theorem birch_murnaghan_code_vs_spec_eval :
    fits.birch_murnaghan 1 64 0 (16 / 9) 2 = -791296 ∧
    birch_murnaghan_spec 1 64 0 (16 / 9) 2 = -403200 ∧
    fits.birch_murnaghan 1 64 0 (16 / 9) 2 ≠ birch_murnaghan_spec 1 64 0 (16 / 9) 2 := by
  have h1 : ((64 : ℝ) / 1) = 64 := by norm_num
  refine ⟨?_, ?_, ?_⟩
  · simp only [fits.birch_murnaghan, h1, rpow_64_half, rpow_64_twothirds]
    norm_num
  · simp only [birch_murnaghan_spec, h1, rpow_64_half, rpow_64_twothirds]
    norm_num
  · simp only [fits.birch_murnaghan, birch_murnaghan_spec, h1, rpow_64_half,
      rpow_64_twothirds]
    norm_num

namespace fitpy

/-- Selector for the model functions defined in `scripts/fit.py`; identity of a
model function passed around in the Python script is modelled by this tag. -/
inductive Model
  | lorentzian
  | murnaghan
  | birchMurnaghan
deriving DecidableEq, Repr

/-- Dispatch table `fit_dispatch` of `scripts/fit.py` combined with the
membership test in `main`: a selector string is mapped to its model function,
and a selector not in the table yields `none` (the script raises
`ValueError(f"Unknown fit type ...")` in that case). -/
def fit_dispatch (s : String) : Option Model :=
  if s = "lorentzian" then some Model.lorentzian
  else if s = "murnaghan" then some Model.murnaghan
  else if s = "birch-murnaghan" then some Model.birchMurnaghan
  else none

/-- Python `min(l)` on a nonempty list; returns `0` on the empty list (where
Python would raise `ValueError`). -/
def listMin {α : Type} [LinearOrderedField α] : List α → α
  | [] => 0
  | [x] => x
  | x :: y :: ys => min x (listMin (y :: ys))

/-- `np.argmin(l)`: index of the first occurrence of the minimum of `l`;
returns `0` on the empty list. -/
def argmin {α : Type} [LinearOrderedField α] : List α → ℕ
  | [] => 0
  | [_] => 0
  | x :: y :: ys => if x ≤ listMin (y :: ys) then 0 else argmin (y :: ys) + 1

/-- Initial-guess vector `p0` computed by `fit_curve` in `scripts/fit.py`
before invoking `scipy.optimize.curve_fit`:
for `lorentzian`, `[min(y_data), x_data[np.argmin(y_data)], 1.0]`;
for `murnaghan` and `birch_murnaghan`,
`[x_data[np.argmin(y_data)], min(y_data), 0.5, 4.0]`. -/
def fit_curve_p0 {α : Type} [LinearOrderedField α]
    (x_data y_data : List α) : Model → List α
  | Model.lorentzian => [listMin y_data, x_data.getD (argmin y_data) 0, 1]
  | Model.murnaghan => [x_data.getD (argmin y_data) 0, listMin y_data, 1 / 2, 4]
  | Model.birchMurnaghan => [x_data.getD (argmin y_data) 0, listMin y_data, 1 / 2, 4]

/-- The minimum value computed by `listMin` belongs to a nonempty list. -/
lemma listMin_mem {α : Type} [LinearOrderedField α] :
    ∀ l : List α, l ≠ [] → listMin l ∈ l
  | [], h => absurd rfl h
  | [x], _ => by simp [listMin]
  | x :: y :: ys, _ => by
    rcases min_cases x (listMin (y :: ys)) with ⟨he, _⟩ | ⟨he, _⟩
    · simp [listMin, he]
    · have := listMin_mem (y :: ys) (by simp)
      simp only [listMin, he]
      exact List.mem_cons_of_mem x this

/-- `listMin` is a lower bound of the list. -/
lemma listMin_le {α : Type} [LinearOrderedField α] :
    ∀ l : List α, ∀ a ∈ l, listMin l ≤ a
  | [], a, ha => absurd ha (List.not_mem_nil a)
  | [x], a, ha => by
    rcases List.mem_singleton.mp ha with rfl
    simp [listMin]
  | x :: y :: ys, a, ha => by
    rcases List.mem_cons.mp ha with rfl | ha2
    · simp [listMin, min_le_left]
    · have := listMin_le (y :: ys) a ha2
      calc listMin (x :: y :: ys) ≤ listMin (y :: ys) := by simp [listMin, min_le_right]
        _ ≤ a := this

/-- `argmin` of a nonempty list is a valid index. -/
lemma argmin_lt_length {α : Type} [LinearOrderedField α] :
    ∀ l : List α, l ≠ [] → argmin l < l.length
  | [], h => absurd rfl h
  | [_], _ => by simp [argmin]
  | x :: y :: ys, _ => by
    by_cases hx : x ≤ listMin (y :: ys)
    · simp [argmin, hx]
    · have h := argmin_lt_length (y :: ys) (by simp)
      simp only [argmin, hx, if_false, List.length_cons] at h ⊢
      exact Nat.succ_lt_succ h

/-- The list value at index `argmin l` is the minimum of `l`. -/
lemma getD_argmin {α : Type} [LinearOrderedField α] :
    ∀ l : List α, l ≠ [] → l.getD (argmin l) 0 = listMin l
  | [], h => absurd rfl h
  | [x], _ => by simp [argmin, listMin]
  | x :: y :: ys, _ => by
    by_cases hx : x ≤ listMin (y :: ys)
    · simp [argmin, listMin, hx, min_eq_left hx]
    · have ih := getD_argmin (y :: ys) (by simp)
      have hle : listMin (y :: ys) ≤ x := le_of_lt (lt_of_not_le hx)
      simp only [argmin, hx, if_false, listMin, min_eq_right hle]
      simpa using ih

/-- Every index strictly before `argmin l` holds a value strictly greater than
the minimum: `argmin` is the index of the first occurrence. -/
lemma argmin_first {α : Type} [LinearOrderedField α] :
    ∀ l : List α, ∀ k, k < argmin l → listMin l < l.getD k 0
  | [], k, hk => by simp [argmin] at hk
  | [_], k, hk => by simp [argmin] at hk
  | x :: y :: ys, k, hk => by
    by_cases hx : x ≤ listMin (y :: ys)
    · simp [argmin, hx] at hk
    · have hlt : listMin (y :: ys) < x := lt_of_not_le hx
      have hmin : listMin (x :: y :: ys) = listMin (y :: ys) := by
        simp [listMin, min_eq_right (le_of_lt hlt)]
      simp only [argmin, hx, if_false] at hk
      match k with
      | 0 => simpa [hmin] using hlt
      | k + 1 =>
        have ih := argmin_first (y :: ys) k (by omega)
        simpa [hmin] using ih

end fitpy

/-- C2 counterexample: the selector `"gaussian"` is not mapped by the dispatch
table of `scripts/fit.py`; it falls through to the unsupported-model error. -/
theorem fit_dispatch_gaussian_unmapped :
    fitpy.fit_dispatch "gaussian" = none := by decide

/-- C2 (amended): the dispatch enumeration of `scripts/fit.py` is the closed
three-element set `{lorentzian, murnaghan, birch-murnaghan}`: each of the three
selectors maps to its own model function, and every other selector string
(including `"gaussian"`) is rejected with the unsupported-model error. -/
theorem fit_dispatch_closed_enum :
    fitpy.fit_dispatch "lorentzian" = some fitpy.Model.lorentzian ∧
    fitpy.fit_dispatch "murnaghan" = some fitpy.Model.murnaghan ∧
    fitpy.fit_dispatch "birch-murnaghan" = some fitpy.Model.birchMurnaghan ∧
    ∀ s : String, s ≠ "lorentzian" → s ≠ "murnaghan" → s ≠ "birch-murnaghan" →
      fitpy.fit_dispatch s = none := by
  refine ⟨by decide, by decide, by decide, ?_⟩
  intro s h1 h2 h3
  simp [fitpy.fit_dispatch, h1, h2, h3]

/-- Witness for C2 (amended) at the concrete selector `"foo"`. -/
theorem fit_dispatch_closed_enum_witness :
    fitpy.fit_dispatch "foo" = none :=
  fit_dispatch_closed_enum.2.2.2 "foo" (by decide) (by decide) (by decide)

/-- C4: for nonempty data of equal lengths, the lorentzian initial-guess vector
is `[m, x_data[j], 1]` where `m` is the minimum of the energies (`m` is a
member of `y_data` and a lower bound of it) and `j` is the index of the first
occurrence of that minimum. -/
theorem lorentzian_initial_guess {α : Type} [LinearOrderedField α]
    (x_data y_data : List α) (hy : y_data ≠ [])
    (hlen : x_data.length = y_data.length) :
    ∃ j, j < x_data.length ∧
      fitpy.fit_curve_p0 x_data y_data fitpy.Model.lorentzian
        = [fitpy.listMin y_data, x_data.getD j 0, 1] ∧
      y_data.getD j 0 = fitpy.listMin y_data ∧
      (∀ k, k < j → fitpy.listMin y_data < y_data.getD k 0) ∧
      fitpy.listMin y_data ∈ y_data ∧
      (∀ a ∈ y_data, fitpy.listMin y_data ≤ a) := by
  refine ⟨fitpy.argmin y_data, ?_, rfl, ?_, ?_, ?_, ?_⟩
  · rw [hlen]; exact fitpy.argmin_lt_length y_data hy
  · exact fitpy.getD_argmin y_data hy
  · exact fun k hk => fitpy.argmin_first y_data k hk
  · exact fitpy.listMin_mem y_data hy
  · exact fitpy.listMin_le y_data

/-- Witness for C4 at concrete rational data. -/
theorem lorentzian_initial_guess_witness :
    ∃ j, j < ([10, 20, 30] : List ℚ).length ∧
      fitpy.fit_curve_p0 ([10, 20, 30] : List ℚ) [5, 3, 4] fitpy.Model.lorentzian
        = [fitpy.listMin ([5, 3, 4] : List ℚ), ([10, 20, 30] : List ℚ).getD j 0, 1] ∧
      ([5, 3, 4] : List ℚ).getD j 0 = fitpy.listMin ([5, 3, 4] : List ℚ) ∧
      (∀ k, k < j → fitpy.listMin ([5, 3, 4] : List ℚ) < ([5, 3, 4] : List ℚ).getD k 0) ∧
      fitpy.listMin ([5, 3, 4] : List ℚ) ∈ ([5, 3, 4] : List ℚ) ∧
      (∀ a ∈ ([5, 3, 4] : List ℚ), fitpy.listMin ([5, 3, 4] : List ℚ) ≤ a) :=
  lorentzian_initial_guess [10, 20, 30] [5, 3, 4] (by decide) (by decide)

/-- C5: for nonempty data of equal lengths, the equation-of-state initial-guess
vector (for both `murnaghan` and `birch_murnaghan`) is
`[x_data[j], m, 0.5, 4.0]` where `m` is the minimum of the energies and `j` is
the index of the first occurrence of that minimum. -/
theorem eos_initial_guess {α : Type} [LinearOrderedField α]
    (x_data y_data : List α) (hy : y_data ≠ [])
    (hlen : x_data.length = y_data.length) :
    ∃ j, j < x_data.length ∧
      fitpy.fit_curve_p0 x_data y_data fitpy.Model.murnaghan
        = [x_data.getD j 0, fitpy.listMin y_data, 1 / 2, 4] ∧
      fitpy.fit_curve_p0 x_data y_data fitpy.Model.birchMurnaghan
        = [x_data.getD j 0, fitpy.listMin y_data, 1 / 2, 4] ∧
      y_data.getD j 0 = fitpy.listMin y_data ∧
      (∀ k, k < j → fitpy.listMin y_data < y_data.getD k 0) ∧
      fitpy.listMin y_data ∈ y_data ∧
      (∀ a ∈ y_data, fitpy.listMin y_data ≤ a) := by
  refine ⟨fitpy.argmin y_data, ?_, rfl, rfl, ?_, ?_, ?_, ?_⟩
  · rw [hlen]; exact fitpy.argmin_lt_length y_data hy
  · exact fitpy.getD_argmin y_data hy
  · exact fun k hk => fitpy.argmin_first y_data k hk
  · exact fitpy.listMin_mem y_data hy
  · exact fitpy.listMin_le y_data

/-- Witness for C5 at concrete rational data. -/
theorem eos_initial_guess_witness :
    ∃ j, j < ([10, 20, 30] : List ℚ).length ∧
      fitpy.fit_curve_p0 ([10, 20, 30] : List ℚ) [5, 3, 4] fitpy.Model.murnaghan
        = [([10, 20, 30] : List ℚ).getD j 0, fitpy.listMin ([5, 3, 4] : List ℚ), 1 / 2, 4] ∧
      fitpy.fit_curve_p0 ([10, 20, 30] : List ℚ) [5, 3, 4] fitpy.Model.birchMurnaghan
        = [([10, 20, 30] : List ℚ).getD j 0, fitpy.listMin ([5, 3, 4] : List ℚ), 1 / 2, 4] ∧
      ([5, 3, 4] : List ℚ).getD j 0 = fitpy.listMin ([5, 3, 4] : List ℚ) ∧
      (∀ k, k < j → fitpy.listMin ([5, 3, 4] : List ℚ) < ([5, 3, 4] : List ℚ).getD k 0) ∧
      fitpy.listMin ([5, 3, 4] : List ℚ) ∈ ([5, 3, 4] : List ℚ) ∧
      (∀ a ∈ ([5, 3, 4] : List ℚ), fitpy.listMin ([5, 3, 4] : List ℚ) ≤ a) :=
  eos_initial_guess [10, 20, 30] [5, 3, 4] (by decide) (by decide)

/-- Bohr radius in Angstrom, `ase.units.Bohr`, used as the Angstrom-to-Bohr
conversion divisor. -/
noncomputable def Bohr : ℝ := 0.5291772105638411

/-- Euclidean norm of a length-3 row vector, `np.linalg.norm`. -/
noncomputable def rowNorm (v : Fin 3 → ℝ) : ℝ :=
  Real.sqrt (∑ j, (v j) ^ 2)

/-- Determinant of a 3x3 matrix given by rows, `np.linalg.det`. -/
noncomputable def det3 (m : Fin 3 → Fin 3 → ℝ) : ℝ :=
  m 0 0 * (m 1 1 * m 2 2 - m 1 2 * m 2 1)
    - m 0 1 * (m 1 0 * m 2 2 - m 1 2 * m 2 0)
    + m 0 2 * (m 1 0 * m 2 1 - m 1 1 * m 2 0)

namespace readerpy

/-- Data visible to `reader` in one opened `GSR.nc` record: the lattice matrix
in Angstrom (`gsr.structure.lattice.matrix`), the total energy (`gsr.energy`),
the plane-wave cutoff already converted to Hartree (`gsr.ecut.to("Ha")`), and
the k-point count (`gsr.nkpt`). -/
structure GSR where
  lattice : Fin 3 → Fin 3 → ℝ
  energy : ℝ
  ecut : ℝ
  nkpt : ℕ

/-- Lattice of a record converted to Bohr, `lattice / Bohr`. -/
noncomputable def lattice_bohr (g : GSR) : Fin 3 → Fin 3 → ℝ :=
  fun i j => g.lattice i j / Bohr

/-- One extracted parameter value: a scalar, a length-3 vector, or a 3x3
matrix, matching the heterogeneous lists built by `reader`. -/
inductive ParamValue
  | scalar : ℝ → ParamValue
  | vec : (Fin 3 → ℝ) → ParamValue
  | mat : (Fin 3 → Fin 3 → ℝ) → ParamValue

/-- Error raised by `reader` for a parameter kind outside the recognized
enumeration (a `TypeError` naming the offending parameter in the source). -/
inductive ReaderError
  | unknownParameter : String → ReaderError
deriving DecidableEq

/-- Body of the per-record `if/elif` chain of `reader` in
`abinit_tools/reader.py` (duplicated in `scripts/reader.py`).  Note that in the
`rprim` branch the NumPy expression `lattice_bohr / acell[:,...]` broadcasts the
norms over the last axis, dividing entry `[i][j]` by the norm of row `j`. -/
noncomputable def extract_one (g : GSR) (param : String) : Except ReaderError ParamValue :=
  if param = "volume" then Except.ok (ParamValue.scalar (det3 (lattice_bohr g)))
  else if param = "ecut" then Except.ok (ParamValue.scalar g.ecut)
  else if param = "nkpt" then Except.ok (ParamValue.scalar (g.nkpt : ℝ))
  else if param = "acell" then
    Except.ok (ParamValue.vec (fun i => rowNorm (lattice_bohr g i)))
  else if param = "rprim" then
    Except.ok (ParamValue.mat (fun i j => lattice_bohr g i j / rowNorm (lattice_bohr g j)))
  else Except.error (ReaderError.unknownParameter param)

/-- The `reader` function of `abinit_tools/reader.py` (duplicated in
`scripts/reader.py`): iterates over the records, accumulating energies and
extracted parameter values; an unknown parameter kind aborts the whole call
with an error as soon as a record is processed. -/
noncomputable def reader : List GSR → String → Except ReaderError (List ℝ × List ParamValue)
  | [], _ => Except.ok ([], [])
  | g :: fs, param =>
    match extract_one g param with
    | Except.error e => Except.error e
    | Except.ok v =>
      match reader fs param with
      | Except.error e => Except.error e
      | Except.ok (es, ps) => Except.ok (g.energy :: es, v :: ps)

/-- Concrete record used by witnesses: zero lattice, zero energy. -/
noncomputable def gsr0 : GSR :=
  { lattice := fun _ _ => 0, energy := 0, ecut := 0, nkpt := 0 }

end readerpy

/-- C3 counterexample: on the empty sequence of records, extraction with the
unrecognized parameter kind `"foo"` raises no error and returns two empty
sequences, contradicting the claim that every record sequence raises
`UnsupportedParameterError` for an unrecognized kind. -/
theorem reader_empty_unknown_param_counterexample :
    readerpy.reader [] "foo" = Except.ok ([], []) := rfl

/-- C3 (amended): for every NON-EMPTY sequence of records and every parameter
kind outside the five recognized values `{ecut, nkpt, volume, acell, rprim}`,
extraction fails with the unsupported-parameter error naming that kind, and
does not return any (empty or non-empty) sequences. -/
theorem reader_unknown_param_raises (g : readerpy.GSR) (gs : List readerpy.GSR)
    (param : String) (h1 : param ≠ "volume") (h2 : param ≠ "ecut")
    (h3 : param ≠ "nkpt") (h4 : param ≠ "acell") (h5 : param ≠ "rprim") :
    readerpy.reader (g :: gs) param
      = Except.error (readerpy.ReaderError.unknownParameter param) := by
  have he : readerpy.extract_one g param
      = Except.error (readerpy.ReaderError.unknownParameter param) := by
    simp [readerpy.extract_one, h1, h2, h3, h4, h5]
  simp [readerpy.reader, he]

/-- Witness for C3 (amended) at a concrete record and the parameter `"foo"`. -/
theorem reader_unknown_param_raises_witness :
    readerpy.reader [readerpy.gsr0] "foo"
      = Except.error (readerpy.ReaderError.unknownParameter "foo") :=
  reader_unknown_param_raises readerpy.gsr0 [] "foo"
    (by decide) (by decide) (by decide) (by decide) (by decide)

/-- C10: on the empty sequence of records, extraction returns two empty
sequences and raises no error, for every parameter kind string, recognized or
not: the per-kind validity check sits inside the per-record loop. -/
theorem reader_empty_records (param : String) :
    readerpy.reader [] param = Except.ok ([], []) := rfl

namespace cif2abi

/-- Lattice rows converted from Angstrom to Bohr in `scripts/cif2abi.py`
(`latt_bohr = latt / Bohr`). -/
noncomputable def latt_bohr (latt : Fin 3 → Fin 3 → ℝ) : Fin 3 → Fin 3 → ℝ :=
  fun i j => latt i j / Bohr

/-- `acell`: per-row Euclidean norms of the Bohr-converted lattice,
`[np.linalg.norm(vec) for vec in latt_bohr]`. -/
noncomputable def acell (latt : Fin 3 → Fin 3 → ℝ) (i : Fin 3) : ℝ :=
  rowNorm (latt_bohr latt i)

/-- `rprim`: row-normalized Bohr-converted lattice vectors,
`[vec / np.linalg.norm(vec) for vec in latt_bohr]`. -/
noncomputable def rprim (latt : Fin 3 → Fin 3 → ℝ) (i j : Fin 3) : ℝ :=
  latt_bohr latt i j / rowNorm (latt_bohr latt i)

end cif2abi

/-- Norm of a row with at least one nonzero entry is strictly positive. -/
lemma rowNorm_pos (v : Fin 3 → ℝ) (hv : ∃ j, v j ≠ 0) : 0 < rowNorm v := by
  obtain ⟨j, hj⟩ := hv
  have hsum : 0 < ∑ k, (v k) ^ 2 := by
    refine Finset.sum_pos' (fun k _ => sq_nonneg (v k)) ⟨j, Finset.mem_univ j, ?_⟩
    positivity
  exact Real.sqrt_pos.mpr hsum

/-- Scaling a row by a positive constant scales its norm. -/
lemma rowNorm_div (v : Fin 3 → ℝ) (c : ℝ) (hc : 0 < c) :
    rowNorm (fun j => v j / c) = rowNorm v / c := by
  unfold rowNorm
  have h : ∑ j, (v j / c) ^ 2 = (∑ j, (v j) ^ 2) / c ^ 2 := by
    rw [Finset.sum_div]
    refine Finset.sum_congr rfl (fun j _ => ?_)
    field_simp
  rw [h, Real.sqrt_div (by positivity), Real.sqrt_sq hc.le]

/-- C6: for every lattice whose Bohr-converted rows are all nonzero, every
`rprim` row produced by `scripts/cif2abi.py` has unit Euclidean norm, and
`acell[i] * rprim[i][j]` reconstructs the Bohr-converted lattice entry. -/
theorem rprim_unit_norm_reconstruction (latt : Fin 3 → Fin 3 → ℝ)
    (h : ∀ i, ∃ j, cif2abi.latt_bohr latt i j ≠ 0) (i : Fin 3) :
    rowNorm (fun j => cif2abi.rprim latt i j) = 1 ∧
    ∀ j, cif2abi.acell latt i * cif2abi.rprim latt i j = cif2abi.latt_bohr latt i j := by
  have hpos : 0 < rowNorm (cif2abi.latt_bohr latt i) := rowNorm_pos _ (h i)
  constructor
  · show rowNorm (fun j => cif2abi.latt_bohr latt i j / rowNorm (cif2abi.latt_bohr latt i)) = 1
    rw [rowNorm_div _ _ hpos]
    exact div_self (ne_of_gt hpos)
  · intro j
    show rowNorm (cif2abi.latt_bohr latt i) * (cif2abi.latt_bohr latt i j / rowNorm (cif2abi.latt_bohr latt i)) = _
    field_simp

/-- Concrete identity lattice used by the C6 witness. -/
noncomputable def L0 : Fin 3 → Fin 3 → ℝ :=
  fun i j => if i = j then 1 else 0

/-- Witness for C6 at the identity lattice, row 0. -/
theorem rprim_unit_norm_reconstruction_witness :
    rowNorm (fun j => cif2abi.rprim L0 0 j) = 1 ∧
    ∀ j, cif2abi.acell L0 0 * cif2abi.rprim L0 0 j = cif2abi.latt_bohr L0 0 j := by
  have hB : (Bohr : ℝ) ≠ 0 := by unfold Bohr; norm_num
  exact rprim_unit_norm_reconstruction L0
    (fun i => ⟨i, by
      simp only [cif2abi.latt_bohr, L0, if_pos rfl]
      exact div_ne_zero one_ne_zero hB⟩) 0

namespace cif2abi

/-- Python `list.index(z)`: index of the first occurrence of `z`; returns the
length of the list when `z` is absent (Python would raise `ValueError`). -/
def listIndex (z : ℕ) : List ℕ → ℕ
  | [] => 0
  | y :: ys => if y = z then 0 else listIndex z ys + 1

/-- `unique_z = sorted(set(atomic_number))`: the distinct atomic numbers in
ascending order. -/
def unique_z (atomic_number : List ℕ) : List ℕ :=
  List.insertionSort (· ≤ ·) atomic_number.dedup

/-- `typat = [unique_z.index(z) + 1 for z in atomic_number]`: the 1-based index
of each site's atomic number within `unique_z`. -/
def typat (atomic_number : List ℕ) : List ℕ :=
  atomic_number.map (fun z => listIndex z (unique_z atomic_number) + 1)

/-- First-occurrence index of a member is a valid index. -/
lemma listIndex_lt_length {z : ℕ} :
    ∀ {u : List ℕ}, z ∈ u → listIndex z u < u.length
  | [], h => absurd h (List.not_mem_nil z)
  | y :: ys, h => by
    by_cases hy : y = z
    · simp [listIndex, hy]
    · have hz : z ∈ ys := by
        rcases List.mem_cons.mp h with rfl | h2
        · exact absurd rfl hy
        · exact h2
      have := listIndex_lt_length hz
      simp only [listIndex, hy, if_false, List.length_cons]
      exact Nat.succ_lt_succ this

/-- The element at the first-occurrence index is the element itself. -/
lemma getD_listIndex {z : ℕ} :
    ∀ {u : List ℕ}, z ∈ u → u.getD (listIndex z u) 0 = z
  | [], h => absurd h (List.not_mem_nil z)
  | y :: ys, h => by
    by_cases hy : y = z
    · simp [listIndex, hy]
    · have hz : z ∈ ys := by
        rcases List.mem_cons.mp h with rfl | h2
        · exact absurd rfl hy
        · exact h2
      have := getD_listIndex hz
      simpa [listIndex, hy] using this

/-- Membership transfers from the site list to `unique_z`. -/
lemma mem_unique_z {z : ℕ} {l : List ℕ} (h : z ∈ l) : z ∈ unique_z l :=
  (List.perm_insertionSort (· ≤ ·) l.dedup).mem_iff.mpr (List.mem_dedup.mpr h)

/-- `unique_z` has no duplicate entries. -/
lemma unique_z_nodup (l : List ℕ) : (unique_z l).Nodup :=
  (List.perm_insertionSort (· ≤ ·) l.dedup).nodup_iff.mpr (List.nodup_dedup l)

/-- Element at a valid index of a `map` image. -/
lemma getD_map_of_lt (f : ℕ → ℕ) :
    ∀ (l : List ℕ) (j : ℕ), j < l.length → (l.map f).getD j 0 = f (l.getD j 0)
  | [], j, hj => absurd hj (by simp)
  | x :: xs, 0, _ => rfl
  | x :: xs, j + 1, hj =>
    getD_map_of_lt f xs j (Nat.lt_of_succ_lt_succ (by simpa using hj))

/-- Element at a valid index is a member. -/
lemma getD_mem_of_lt :
    ∀ (l : List ℕ) (j : ℕ), j < l.length → l.getD j 0 ∈ l
  | [], j, hj => absurd hj (by simp)
  | x :: xs, 0, _ => List.mem_cons_self x xs
  | x :: xs, j + 1, hj =>
    List.mem_cons_of_mem x
      (getD_mem_of_lt xs j (Nat.lt_of_succ_lt_succ (by simpa using hj)))

end cif2abi

/-- C7: for every list of per-site atomic numbers, `unique_z` is strictly
ascending (sorted by atomic number, not discovery order, with no duplicates),
`typat` has exactly one entry per site, each `typat[j]` is the 1-based index of
site `j`'s atomic number within `unique_z`, and every `typat` value lies in
`[1, len(unique_z)]`. -/
theorem typat_unique_z_invariants (l : List ℕ) :
    (cif2abi.unique_z l).Sorted (· < ·) ∧
    (cif2abi.typat l).length = l.length ∧
    (∀ j, j < l.length → ∃ k, k < (cif2abi.unique_z l).length ∧
      (cif2abi.typat l).getD j 0 = k + 1 ∧
      (cif2abi.unique_z l).getD k 0 = l.getD j 0) ∧
    (∀ t ∈ cif2abi.typat l, 1 ≤ t ∧ t ≤ (cif2abi.unique_z l).length) := by
  refine ⟨?_, List.length_map l _, ?_, ?_⟩
  · exact List.Sorted.lt_of_le
      (List.sorted_insertionSort (· ≤ ·) l.dedup) (cif2abi.unique_z_nodup l)
  · intro j hj
    have hz : l.getD j 0 ∈ l := cif2abi.getD_mem_of_lt l j hj
    have hzu : l.getD j 0 ∈ cif2abi.unique_z l := cif2abi.mem_unique_z hz
    refine ⟨cif2abi.listIndex (l.getD j 0) (cif2abi.unique_z l),
      cif2abi.listIndex_lt_length hzu, ?_, cif2abi.getD_listIndex hzu⟩
    exact cif2abi.getD_map_of_lt _ l j hj
  · intro t ht
    obtain ⟨z, hz, rfl⟩ := List.mem_map.mp ht
    have hzu : z ∈ cif2abi.unique_z l := cif2abi.mem_unique_z hz
    exact ⟨Nat.succ_le_succ (Nat.zero_le _),
      Nat.succ_le_of_lt (cif2abi.listIndex_lt_length hzu)⟩

/-- Witness for C7 on the concrete site list `[8, 1, 8]` (water-like: O, H, O):
the `typat` value `2` lies within `[1, len(unique_z)]`. -/
theorem typat_unique_z_invariants_witness :
    1 ≤ 2 ∧ 2 ≤ (cif2abi.unique_z [8, 1, 8]).length :=
  (typat_unique_z_invariants [8, 1, 8]).2.2.2 2 (by decide)

namespace cif2abi

/-- Round to the nearest integer, ties to even: the rounding applied by Python
fixed-point float formatting. -/
def roundHalfEven (q : ℚ) : ℤ :=
  if q - ⌊q⌋ < 1 / 2 then ⌊q⌋
  else if 1 / 2 < q - ⌊q⌋ then ⌊q⌋ + 1
  else if ⌊q⌋ % 2 = 0 then ⌊q⌋ else ⌊q⌋ + 1

/-- Decimal digit character: `digitChar d` is the character for digit `d`. -/
def digitChar (d : ℕ) : Char := Char.ofNat (48 + d)

/-- Decimal rendering of a natural number, most significant digit first, with
no leading zeros, and `"0"` for zero. -/
def natToString (n : ℕ) : String :=
  if n = 0 then String.mk [digitChar 0]
  else String.mk (((Nat.digits 10 n).reverse).map digitChar)

/-- Left-pad a digit string with zeros up to width `k`. -/
def padLeftZeros (s : String) (k : ℕ) : String :=
  String.mk (List.replicate (k - s.data.length) (digitChar 0)) ++ s

/-- The decimal separator character. -/
def dotChar : Char := Char.ofNat 46

/-- The minus sign character. -/
def minusChar : Char := Char.ofNat 45

/-- Model of the Python f-string `f"{x:.{precision}f}"` on a real value
(idealized as a rational): round `x * 10 ^ precision` to the nearest integer
(ties to even), and print it as a fixed-point decimal with `precision` digits
after the separator; for `precision = 0` no separator is printed; a negative
value carries a leading minus sign (so `-0.001` at precision 2 prints as
`-0.00`, as Python does). -/
def formatFixed (x : ℚ) (precision : ℕ) : String :=
  let scaled := roundHalfEven (x * (10 : ℚ) ^ precision)
  let n := scaled.natAbs
  let intPart := n / 10 ^ precision
  let fracPart := n % 10 ^ precision
  let sign := if x < 0 then String.mk [minusChar] else ""
  if precision = 0 then sign ++ natToString intPart
  else sign ++ natToString intPart ++ String.mk [dotChar]
    ++ padLeftZeros (natToString fracPart) precision

/-- The `clean_format` function of `scripts/cif2abi.py`: a value of magnitude
below `tol` is treated as exactly `0`, then formatted with `precision` decimal
digits.  The source's default arguments are `tol = 1e-14`, `precision = 2`. -/
def clean_format (x tol : ℚ) (precision : ℕ) : String :=
  formatFixed (if |x| < tol then 0 else x) precision

/-- Predicate: a character is not the decimal separator. -/
def notDot (c : Char) : Bool := c != dotChar

/-- Number of characters after the first decimal separator of a string
(`0` when there is no separator). -/
def digitsAfterSep (s : String) : ℕ :=
  ((s.data.dropWhile notDot).drop 1).length

/-- Dropping while all of a prefix satisfies the predicate skips the prefix. -/
lemma dropWhile_append_of_all :
    ∀ (l1 l2 : List Char), (∀ c ∈ l1, notDot c = true) →
      (l1 ++ l2).dropWhile notDot = l2.dropWhile notDot
  | [], _, _ => rfl
  | c :: l1, l2, h => by
    have hc : notDot c = true := h c (List.mem_cons_self c l1)
    have ih := dropWhile_append_of_all l1 l2
      (fun d hd => h d (List.mem_cons_of_mem c hd))
    simp [List.dropWhile_cons, hc, ih]

/-- A list of all non-separator characters drops to nothing. -/
lemma dropWhile_all_eq_nil {l : List Char} (h : ∀ c ∈ l, notDot c = true) :
    l.dropWhile notDot = [] := by
  have := dropWhile_append_of_all l [] h
  simpa using this

/-- Every character of `natToString n` is a decimal digit character. -/
lemma natToString_all_digits (n : ℕ) :
    ∀ c ∈ (natToString n).data, ∃ d, d < 10 ∧ c = digitChar d := by
  intro c hc
  unfold natToString at hc
  by_cases h0 : n = 0
  · rw [if_pos h0] at hc
    refine ⟨0, by norm_num, ?_⟩
    simpa using hc
  · rw [if_neg h0] at hc
    have hc2 : c ∈ ((Nat.digits 10 n).reverse).map digitChar := hc
    obtain ⟨d, hd, rfl⟩ := List.mem_map.mp hc2
    exact ⟨d, Nat.digits_lt_base (by norm_num) (List.mem_reverse.mp hd), rfl⟩

/-- Digit characters are not the separator. -/
lemma notDot_digitChar : ∀ d, d < 10 → notDot (digitChar d) = true := by decide

/-- Characters of `natToString` are never the separator. -/
lemma natToString_notDot (n : ℕ) : ∀ c ∈ (natToString n).data, notDot c = true := by
  intro c hc
  obtain ⟨d, hd, rfl⟩ := natToString_all_digits n c hc
  exact notDot_digitChar d hd

/-- Length of a zero-padded digit string. -/
lemma padLeftZeros_length (s : String) (k : ℕ) (h : s.data.length ≤ k) :
    (padLeftZeros s k).data.length = k := by
  unfold padLeftZeros
  rw [String.data_append]
  simp only [List.length_append, List.length_replicate]
  omega

/-- Length bound for decimal rendering: below `10 ^ p`, at most `p` digits
(for `1 ≤ p`). -/
lemma natToString_length_le (n p : ℕ) (hn : n < 10 ^ p) (hp : 1 ≤ p) :
    (natToString n).data.length ≤ p := by
  unfold natToString
  by_cases h0 : n = 0
  · rw [if_pos h0]; simpa using hp
  · rw [if_neg h0]
    simp only [List.length_map, List.length_reverse]
    rw [Nat.digits_len 10 n (by norm_num) h0]
    have := Nat.log_lt_of_lt_pow h0 hn
    omega

/-- Counting characters after the separator in a string of the shape
`pre ++ "." ++ frac` where `pre` has no separator. -/
lemma digitsAfterSep_shape (pre frac : List Char)
    (h : ∀ c ∈ pre, notDot c = true) :
    (((pre ++ (dotChar :: frac)).dropWhile notDot).drop 1).length = frac.length := by
  rw [dropWhile_append_of_all pre (dotChar :: frac) h]
  have hdot : notDot dotChar = false := by decide
  simp [List.dropWhile_cons, hdot]

/-- The fixed-point formatter emits exactly `precision` characters after the
decimal separator (and none when `precision = 0`, where no separator is
printed). -/
lemma digitsAfterSep_formatFixed (x : ℚ) (p : ℕ) :
    digitsAfterSep (formatFixed x p) = p := by
  have hsign : ∀ c ∈ (if x < 0 then String.mk [minusChar] else "").data,
      notDot c = true := by
    by_cases hx : x < 0
    · rw [if_pos hx]; intro c hc
      have hc2 : c ∈ [minusChar] := hc
      rcases List.mem_singleton.mp hc2 with rfl
      decide
    · rw [if_neg hx]; intro c hc; exact absurd hc (List.not_mem_nil c)
  unfold formatFixed digitsAfterSep
  by_cases hp : p = 0
  · rw [if_pos hp]
    rw [String.data_append]
    rw [dropWhile_all_eq_nil ?_]
    · simpa using hp.symm
    · intro c hc
      rcases List.mem_append.mp hc with hc | hc
      · exact hsign c hc
      · exact natToString_notDot _ c hc
  · rw [if_neg hp]
    rw [String.data_append, String.data_append, String.data_append]
    have hshape : (if x < 0 then String.mk [minusChar] else "").data
        ++ (natToString ((roundHalfEven (x * (10 : ℚ) ^ p)).natAbs / 10 ^ p)).data
        ++ (String.mk [dotChar]).data
        ++ (padLeftZeros (natToString ((roundHalfEven (x * (10 : ℚ) ^ p)).natAbs % 10 ^ p)) p).data
        = ((if x < 0 then String.mk [minusChar] else "").data
          ++ (natToString ((roundHalfEven (x * (10 : ℚ) ^ p)).natAbs / 10 ^ p)).data)
          ++ (dotChar
            :: (padLeftZeros (natToString ((roundHalfEven (x * (10 : ℚ) ^ p)).natAbs % 10 ^ p)) p).data) := by
      simp [List.append_assoc]
    rw [hshape, digitsAfterSep_shape _ _ ?_]
    · refine padLeftZeros_length _ _ ?_
      refine natToString_length_le _ _ ?_ (Nat.one_le_iff_ne_zero.mpr hp)
      exact Nat.mod_lt _ (Nat.pos_pow_of_pos p (by norm_num))
    · intro c hc
      rcases List.mem_append.mp hc with hc | hc
      · exact hsign c hc
      · exact natToString_notDot _ c hc

/-- Rounding of zero is zero. -/
lemma roundHalfEven_zero : roundHalfEven 0 = 0 := by
  unfold roundHalfEven
  norm_num

/-- Concrete evaluation: formatting the snapped value `0` with two decimal
digits yields `"0.00"`. -/
lemma formatFixed_zero_two : formatFixed 0 2 = "0.00" := by
  have hm : ((0 : ℚ) * (10 : ℚ) ^ 2) = 0 := by norm_num
  have hlt : ¬((0 : ℚ) < 0) := lt_irrefl 0
  simp only [formatFixed, hm, roundHalfEven_zero, if_neg hlt]
  decide

end cif2abi

/-- C8: `clean_format` always returns a fixed-point decimal string with exactly
`precision` characters after the decimal separator; a value of magnitude below
`tol` is formatted as exactly `0`; and at the source's defaults
(`tol = 1e-14`, `precision = 2`) the input `0.999999999999999e-15` is formatted
as the string `"0.00"`. -/
theorem clean_format_fixed_point :
    (∀ (x tol : ℚ) (p : ℕ),
      cif2abi.digitsAfterSep (cif2abi.clean_format x tol p) = p) ∧
    (∀ (x tol : ℚ) (p : ℕ), |x| < tol →
      cif2abi.clean_format x tol p = cif2abi.formatFixed 0 p) ∧
    cif2abi.clean_format (0.999999999999999e-15) (1e-14) 2 = "0.00" := by
  refine ⟨?_, ?_, ?_⟩
  · intro x tol p
    unfold cif2abi.clean_format
    exact cif2abi.digitsAfterSep_formatFixed _ p
  · intro x tol p h
    unfold cif2abi.clean_format
    rw [if_pos h]
  · have h : |(0.999999999999999e-15 : ℚ)| < (1e-14 : ℚ) := by
      rw [abs_of_pos (by norm_num)]
      norm_num
    unfold cif2abi.clean_format
    rw [if_pos h]
    exact cif2abi.formatFixed_zero_two

/-- Witness for C8: the zero-snapping clause applied at the concrete input
`x = 1e-20`, `tol = 1e-14`, `precision = 2`. -/
theorem clean_format_fixed_point_witness :
    cif2abi.clean_format (1e-20) (1e-14) 2 = cif2abi.formatFixed 0 2 :=
  clean_format_fixed_point.2.1 (1e-20) (1e-14) 2
    (by rw [abs_of_pos (by norm_num)]; norm_num)

/-- C9: the model functions duplicated between `abinit_tools/fits.py` and
`scripts/fit.py` (`lorentzian`, `murnaghan`, `birch_murnaghan`) are
extensionally equal: for all real inputs the two copies return the same value. -/
theorem duplicate_models_extensionally_equal :
    (∀ x a b c : ℝ, fits.lorentzian x a b c = fitpy.lorentzian x a b c) ∧
    (∀ V V_0 E_0 B_0 B_1 : ℝ, fits.murnaghan V V_0 E_0 B_0 B_1 = fitpy.murnaghan V V_0 E_0 B_0 B_1) ∧
    (∀ V V_0 E_0 B_0 B_1 : ℝ,
      fits.birch_murnaghan V V_0 E_0 B_0 B_1 = fitpy.birch_murnaghan V V_0 E_0 B_0 B_1) :=
  ⟨fun _ _ _ _ => rfl, fun _ _ _ _ _ => rfl, fun _ _ _ _ _ => rfl⟩
